import Mathlib

/-!
# Let's Talk: the rooms table and the socket handlers of `server.js`

A shallow embedding of the in-memory part of `src/server.js`: the `rooms`
object, the `/rooms` and `/createRoom` routes and the four socket handlers
(`createRoom`, `joinRoom`, `chatMessage`, `disconnect`).

* The `rooms` object is an association list kept in the order in which
  `Object.keys` enumerates it.
* A handler returns the state it leaves behind, the ordered trace of the
  calls it makes on its collaborators (registry, socket, `io`, the Message
  model) and whether it ended by throwing.
* `Math.random`, `formatMessage` and the outcome of a `save()` are inputs.
-/

namespace LetsTalk

/-! ## Data model -/

/-- The record `userJoin(id, username, room)` builds for a present user. -/
structure User where
  id : String
  username : String
  room : String
deriving DecidableEq, Repr

/-- A value of the `rooms` object: `{ users, code }`, with `creator` only when
the room comes from the HTTP route. -/
structure Room where
  users : List User
  code : String
  creator : Option String
deriving DecidableEq, Repr

/-- The `rooms` object: its own properties, listed in `Object.keys` order. -/
abbrev Rooms := List (String × Room)

/-- Modelled from the spec: the value `formatMessage` of `utils/messages`
returns, a Chat Message with sender, text, timestamp and the derived sentiment
label and emoji (the handler reads `message.sentiment` and `message.emoji`). -/
structure Message where
  username : String
  text : String
  time : String
  sentiment : String
  emoji : String
deriving DecidableEq, Repr

/-- The document handed to `new Message({...})` in the `chatMessage` handler. -/
structure MessageDoc where
  username : String
  text : String
  room : String
  sentiment : String
  emoji : String
deriving DecidableEq, Repr

/-- What the program takes from outside: `formatMessage` (its file is not among
the sources) and the value of the `n`-th call of
`generateRoomCode`, which is `Math.random()` rendered in base 36. -/
structure Env where
  formatMessage : String → String → Message
  generateRoomCode : Nat → String

/-- The mutable state of one server process. -/
structure State where
  /-- the `rooms` object -/
  rooms : Rooms
  /-- the list kept by `utils/users` -/
  users : List User
  /-- how many times `generateRoomCode` has been called -/
  generated : Nat
deriving DecidableEq, Repr

/-! ## The `rooms` object -/

def botName : String := "LetsTalk Bot"

def predefinedRooms : List String :=
  ["JavaScript", "Python", "PHP", "C#", "Ruby", "Java"]

/-- The property names every object literal inherits from `Object.prototype`;
each of them holds a function or an object, hence a truthy value. -/
def objectPrototypeKeys : List String :=
  ["constructor", "__defineGetter__", "__defineSetter__", "hasOwnProperty",
   "__lookupGetter__", "__lookupSetter__", "isPrototypeOf",
   "propertyIsEnumerable", "toString", "valueOf", "__proto__", "toLocaleString"]

/-- The list `Object.keys(rooms)`. -/
def keys (rooms : Rooms) : List String := rooms.map Prod.fst

/-- The own property `rooms[name]`, when there is one. -/
def getRoom (rooms : Rooms) (name : String) : Option Room :=
  match rooms with
  | [] => none
  | (k, r) :: rest => if k = name then some r else getRoom rest name

/-- Truthiness of `rooms[name]`: an own property holds a room object, an
inherited one a function or object, anything else is `undefined`. -/
def roomTruthy (rooms : Rooms) (name : String) : Bool :=
  (getRoom rooms name).isSome || decide (name ∈ objectPrototypeKeys)

/-- Value of a string of decimal digits. -/
def digitsValue (cs : List Char) : Nat :=
  cs.foldl (fun acc c => 10 * acc + (c.toNat - 48)) 0

/-- The array index a property name denotes, if it is the canonical decimal
form of an integer below `2^32 - 1`; such keys are enumerated first, in
ascending order. -/
def arrayIndex (name : String) : Option Nat :=
  match name.data with
  | [] => none
  | ['0'] => some 0
  | '0' :: _ => none
  | cs =>
    if cs.all (fun c => decide ('0' ≤ c ∧ c ≤ '9')) ∧ digitsValue cs < 2 ^ 32 - 1 then
      some (digitsValue cs)
    else none

/-- Place of a new array-index key: before the first key that is not an
array index or is a larger one. -/
def insertIndexed (i : Nat) (e : String × Room) : Rooms → Rooms
  | [] => [e]
  | x :: xs =>
    match arrayIndex x.1 with
    | some j => if j < i then x :: insertIndexed i e xs else e :: x :: xs
    | none => e :: x :: xs

/-- The assignment `rooms[name] = room` for a name that is not yet an own
property: array-index names go among the indices, every other name last. -/
def insertKey (rooms : Rooms) (name : String) (room : Room) : Rooms :=
  match arrayIndex name with
  | some i => insertIndexed i (name, room) rooms
  | none => rooms ++ [(name, room)]

/-- The table after
`predefinedRooms.forEach(room => rooms[room] = { users: [], code: room })`. -/
def initialRooms : Rooms :=
  predefinedRooms.foldl
    (fun rooms room => insertKey rooms room { users := [], code := room, creator := none }) []

/-- The expression `Object.keys(rooms).find(key => rooms[key].code === roomCode)`. -/
def findRoomByCode (rooms : Rooms) (roomCode : String) : Option String :=
  (keys rooms).find? fun key =>
    match getRoom rooms key with
    | some r => decide (r.code = roomCode)
    | none => false

/-- The statement `rooms[room].users.push(user)`. -/
def pushUser (rooms : Rooms) (room : String) (user : User) : Rooms :=
  rooms.map fun e => if e.1 = room then (e.1, { e.2 with users := e.2.users ++ [user] }) else e

/-- The statement
`rooms[room].users = rooms[room].users.filter((u) => u.id !== id)`. -/
def removeUser (rooms : Rooms) (room : String) (id : String) : Rooms :=
  rooms.map fun e =>
    if e.1 = room then (e.1, { e.2 with users := e.2.users.filter fun u => decide (u.id ≠ id) })
    else e

/-- Every connection id stored in some room, room after room. -/
def memberIds (rooms : Rooms) : List String :=
  rooms.flatMap fun e => e.2.users.map User.id

/-- The join codes of all rooms. -/
def codes (rooms : Rooms) : List String := rooms.map fun e => e.2.code

/-! ## The connection registry (`utils/users`) -/

/-- Modelled from the spec: `lookup` of the Connection Registry, the function
`getCurrentUser` of `utils/users`, whose file is not among the sources. It yields
the present user of a connection, or no user (`NotPresent`). -/
def getCurrentUser (users : List User) (id : String) : Option User :=
  users.find? fun u => decide (u.id = id)

/-- Modelled from the spec: `register` of the Connection Registry, the function
`userJoin` of `utils/users`, whose file is not among the sources. It fails
(`AlreadyPresent`) when the connection is registered already, and otherwise
records the present user after the earlier ones and returns it. -/
def userJoin (users : List User) (id username room : String) : Option (List User × User) :=
  match getCurrentUser users id with
  | some _ => none
  | none => some (users ++ [{ id := id, username := username, room := room }],
                  { id := id, username := username, room := room })

/-- Modelled from the spec: `unregister` of the Connection Registry, the
function `userLeave` of `utils/users`, whose file is not among the sources. It
removes and returns the present user of a connection, or returns no user
(`NotPresent`) and changes nothing. -/
def userLeave (users : List User) (id : String) : Option (List User × User) :=
  match getCurrentUser users id with
  | some u => some (users.filter (fun v => decide (v.id ≠ id)), u)
  | none => none

/-- Modelled from the spec: `listByRoom` of the Connection Registry, the
function `getRoomUsers` of `utils/users`, whose file is not among the sources: the
present users of a room in join order. -/
def getRoomUsers (users : List User) (room : String) : List User :=
  users.filter fun u => decide (u.room = room)

/-! ## Handlers -/

/-- What an emitted event carries. -/
inductive Payload where
  /-- the string of an `error` event -/
  | reason (text : String)
  /-- a formatted message -/
  | message (m : Message)
  /-- the roster `{ room, users }` -/
  | roomUsers (room : String) (users : List User)
deriving DecidableEq, Repr

/-- One call a handler makes on a collaborator, in program order. -/
inductive Effect where
  | userJoin (id username room : String)
  | getCurrentUser (id : String)
  | userLeave (id : String)
  | getRoomUsers (room : String)
  /-- the call `socket.join(room)` -/
  | socketJoin (id room : String)
  /-- the call `socket.emit(event, payload)` -/
  | socketEmit (id event : String) (payload : Payload)
  /-- the call `socket.broadcast.to(room).emit(event, payload)` -/
  | socketBroadcast (id room event : String) (payload : Payload)
  /-- the call `io.to(room).emit(event, payload)` -/
  | ioEmit (room event : String) (payload : Payload)
  /-- the call `newMessage.save()` -/
  | messageSave (doc : MessageDoc)
  /-- the call `console.error('Error saving message:', error)` -/
  | consoleError
deriving DecidableEq, Repr

/-- Whether a call sends an event to clients. -/
def Effect.isEmit : Effect → Bool
  | .socketEmit .. => true
  | .socketBroadcast .. => true
  | .ioEmit .. => true
  | _ => false

/-- The events a trace sends to clients, in order. -/
def emitted (trace : List Effect) : List Effect := trace.filter Effect.isEmit

/-- Result of running a socket handler. -/
structure Outcome where
  state : State
  trace : List Effect
  /-- the handler ended with an exception nothing catches -/
  threw : Bool
deriving DecidableEq, Repr

/-- Arguments the socket `createRoom` handler passes to its callback. -/
structure Callback where
  error : Option String
  roomCode : Option String
deriving DecidableEq, Repr

/-- An HTTP response: status and the fields of its JSON body. -/
structure Response where
  status : Nat
  success : Bool
  message : Option String
  roomCode : Option String
deriving DecidableEq, Repr

/-- The route `GET /rooms`: `res.json(predefinedRooms)`. -/
def getRooms (_st : State) : List String := predefinedRooms

/-- The route `POST /createRoom` behind the `auth` middleware. `auth` is the `user.id` of
the verified token, or `none` when the token is missing or does not verify;
`saveOk` tells whether `room.save()` resolves. -/
def postCreateRoom (env : Env) (st : State) (auth : Option String) (roomName : String)
    (saveOk : Bool) : State × Response :=
  match auth with
  | none =>
    (st, { status := 401, success := false,
           message := some "You need to log in to create a room.", roomCode := none })
  | some userId =>
    if !roomTruthy st.rooms roomName then
      let roomCode := env.generateRoomCode st.generated
      let st' : State :=
        { st with
          rooms := insertKey st.rooms roomName
            { users := [], code := roomCode, creator := some userId },
          generated := st.generated + 1 }
      if saveOk then
        (st', { status := 201, success := true, message := none, roomCode := some roomCode })
      else
        (st', { status := 500, success := false, message := some "Server error",
                roomCode := none })
    else
      (st, { status := 400, success := false, message := some "Room already exists",
             roomCode := none })

/-- The socket `createRoom` handler. -/
def createRoom (env : Env) (st : State) (room : String) : State × Callback :=
  if !roomTruthy st.rooms room then
    let roomCode := env.generateRoomCode st.generated
    ({ st with
       rooms := insertKey st.rooms room { users := [], code := roomCode, creator := none },
       generated := st.generated + 1 },
     { error := none, roomCode := some roomCode })
  else
    (st, { error := some "Room already exists", roomCode := none })

/-- The socket `joinRoom` handler of connection `id`. The test `if (room)` is
on the key that `find` returned: a string, falsy exactly when empty, or
`undefined`. When `userJoin` returns no user, reading `user.room` throws. -/
def joinRoom (env : Env) (st : State) (id username roomCode : String) : Outcome :=
  let notFound : Outcome :=
    { state := st,
      trace := [.socketEmit id "error" (.reason "Room does not exist")],
      threw := false }
  match findRoomByCode st.rooms roomCode with
  | none => notFound
  | some room =>
    if room = "" then notFound
    else
      match userJoin st.users id username room with
      | none => { state := st, trace := [.userJoin id username room], threw := true }
      | some (users', user) =>
        { state := { st with users := users', rooms := pushUser st.rooms room user },
          trace :=
            [.userJoin id username room,
             .socketJoin id user.room,
             .socketEmit id "message"
               (.message (env.formatMessage botName "Welcome to LetsTalk!")),
             .socketBroadcast id user.room "message"
               (.message (env.formatMessage botName (user.username ++ " has joined the chat"))),
             .getRoomUsers user.room,
             .ioEmit user.room "roomUsers"
               (.roomUsers user.room (getRoomUsers users' user.room))],
          threw := false }

/-- The socket `chatMessage` handler of connection `id`; `saveOk` tells whether
`newMessage.save()` resolves. When `getCurrentUser` returns no user, reading
`user.username` throws before anything else happens. -/
def chatMessage (env : Env) (st : State) (id msg : String) (saveOk : Bool) : Outcome :=
  match getCurrentUser st.users id with
  | none => { state := st, trace := [.getCurrentUser id], threw := true }
  | some user =>
    let message := env.formatMessage user.username msg
    { state := st,
      trace :=
        [.getCurrentUser id,
         .ioEmit user.room "message" (.message message),
         .messageSave { username := user.username, text := msg, room := user.room,
                        sentiment := message.sentiment, emoji := message.emoji }]
        ++ (if saveOk then [] else [.consoleError]),
      threw := false }

/-- The socket `disconnect` handler of connection `id`. The last statement reads
`rooms[user.room].users`, which throws when `user.room` names no room. -/
def disconnect (env : Env) (st : State) (id : String) : Outcome :=
  match userLeave st.users id with
  | none => { state := st, trace := [.userLeave id], threw := false }
  | some (users', user) =>
    let trace : List Effect :=
      [.userLeave id,
       .ioEmit user.room "message"
         (.message (env.formatMessage botName (user.username ++ " has left the chat"))),
       .getRoomUsers user.room,
       .ioEmit user.room "roomUsers" (.roomUsers user.room (getRoomUsers users' user.room))]
    match getRoom st.rooms user.room with
    | some _ =>
      { state := { st with users := users', rooms := removeUser st.rooms user.room user.id },
        trace := trace, threw := false }
    | none => { state := { st with users := users' }, trace := trace, threw := true }

/-! ## The server as a transition system -/

/-- A request or socket event reaching the server. -/
inductive Request where
  | getRooms
  | postCreateRoom (auth : Option String) (roomName : String) (saveOk : Bool)
  | createRoom (room : String)
  | joinRoom (id username roomCode : String)
  | chatMessage (id msg : String) (saveOk : Bool)
  | disconnect (id : String)
deriving DecidableEq, Repr

/-- The state after the server has handled one request. -/
def step (env : Env) (st : State) : Request → State
  | .getRooms => st
  | .postCreateRoom auth roomName saveOk => (postCreateRoom env st auth roomName saveOk).1
  | .createRoom room => (createRoom env st room).1
  | .joinRoom id username roomCode => (joinRoom env st id username roomCode).state
  | .chatMessage id msg saveOk => (chatMessage env st id msg saveOk).state
  | .disconnect id => (disconnect env st id).state

/-- The state at start-up: the predefined rooms, nobody present. -/
def initialState : State := { rooms := initialRooms, users := [], generated := 0 }

/-- The state after a sequence of requests, handled one at a time. -/
def run (env : Env) (reqs : List Request) : State := reqs.foldl (step env) initialState

/-- An environment for worked examples: every generated code is the same. -/
def constEnv (code : String) : Env :=
  { formatMessage := fun username text =>
      { username := username, text := text, time := "", sentiment := "", emoji := "" },
    generateRoomCode := fun _ => code }

/-- Consistency of the rooms table with the registry: room names are pairwise
distinct, no connection is registered twice, every member of a room is the
registered user of its connection and is registered under that room, and no
connection id is stored twice over all rooms. -/
structure Consistent (st : State) : Prop where
  keys_nodup : (keys st.rooms).Nodup
  ids_nodup : (st.users.map User.id).Nodup
  members_registered : ∀ e ∈ st.rooms, ∀ u ∈ e.2.users, u ∈ st.users ∧ u.room = e.1
  members_nodup : (memberIds st.rooms).Nodup

/-! ## Lemmas on the `rooms` object -/

theorem getRoom_mem {rooms : Rooms} {name : String} {r : Room}
    (h : getRoom rooms name = some r) : (name, r) ∈ rooms := by
  induction rooms with
  | nil => simp [getRoom] at h
  | cons x xs ih =>
    obtain ⟨k, v⟩ := x
    by_cases hk : k = name
    · simp [getRoom, hk] at h
      simp [hk, h]
    · simp [getRoom, hk] at h
      exact List.mem_cons_of_mem _ (ih h)

theorem getRoom_eq_none {rooms : Rooms} {name : String} :
    getRoom rooms name = none ↔ name ∉ keys rooms := by
  induction rooms with
  | nil => simp [getRoom, keys]
  | cons x xs ih =>
    obtain ⟨k, v⟩ := x
    by_cases hk : k = name
    · simp [getRoom, keys, hk]
    · have hk' : ¬ name = k := fun h => hk h.symm
      simpa [getRoom, keys, hk, hk'] using ih

theorem getRoom_isSome {rooms : Rooms} {name : String} :
    (getRoom rooms name).isSome = true ↔ name ∈ keys rooms := by
  cases h : getRoom rooms name with
  | none => simpa using getRoom_eq_none.mp h
  | some r =>
    simp only [Option.isSome_some, true_iff]
    by_contra hn
    rw [getRoom_eq_none.mpr hn] at h
    exact Option.noConfusion h

theorem insertIndexed_perm (i : Nat) (e : String × Room) (rooms : Rooms) :
    (insertIndexed i e rooms).Perm (e :: rooms) := by
  induction rooms with
  | nil => simp [insertIndexed]
  | cons x xs ih =>
    unfold insertIndexed
    split
    · split
      · exact (List.Perm.cons x ih).trans (List.Perm.swap e x xs)
      · exact List.Perm.refl _
    · exact List.Perm.refl _

theorem insertKey_perm (rooms : Rooms) (name : String) (room : Room) :
    (insertKey rooms name room).Perm ((name, room) :: rooms) := by
  unfold insertKey
  split
  · exact insertIndexed_perm _ _ _
  · exact List.perm_append_singleton _ _

theorem mem_insertKey {rooms : Rooms} {name : String} {room : Room} {e : String × Room} :
    e ∈ insertKey rooms name room ↔ e = (name, room) ∨ e ∈ rooms := by
  rw [(insertKey_perm rooms name room).mem_iff, List.mem_cons]

theorem keys_insertKey_perm (rooms : Rooms) (name : String) (room : Room) :
    (keys (insertKey rooms name room)).Perm (name :: keys rooms) :=
  (insertKey_perm rooms name room).map Prod.fst

theorem getRoom_insertIndexed (i : Nat) (name : String) (room : Room) (rooms : Rooms)
    (other : String) (hnew : name ∉ keys rooms) :
    getRoom (insertIndexed i (name, room) rooms) other =
      if name = other then some room else getRoom rooms other := by
  induction rooms with
  | nil => simp [insertIndexed, getRoom]
  | cons x xs ih =>
    obtain ⟨k, v⟩ := x
    have hk : ¬ name = k := fun h => hnew (by simp [keys, h])
    have hxs : name ∉ keys xs := fun h => hnew (by simp [keys] at h ⊢; exact Or.inr h)
    unfold insertIndexed
    split
    · split
      · simp only [getRoom, ih hxs]
        by_cases h1 : k = other
        · have : ¬ name = other := fun h => hk (h.trans h1.symm)
          simp [h1, this]
        · simp [h1]
      · simp [getRoom]
    · simp [getRoom]

theorem getRoom_append_singleton (name : String) (room : Room) (rooms : Rooms)
    (other : String) (hnew : name ∉ keys rooms) :
    getRoom (rooms ++ [(name, room)]) other =
      if name = other then some room else getRoom rooms other := by
  induction rooms with
  | nil => simp [getRoom]
  | cons x xs ih =>
    obtain ⟨k, v⟩ := x
    have hk : ¬ name = k := fun h => hnew (by simp [keys, h])
    have hxs : name ∉ keys xs := fun h => hnew (by simp [keys] at h ⊢; exact Or.inr h)
    simp only [List.cons_append, getRoom]
    by_cases h1 : k = other
    · have : ¬ name = other := fun h => hk (h.trans h1.symm)
      simp [h1, this]
    · simp [h1, ih hxs]

theorem getRoom_insertKey (rooms : Rooms) (name : String) (room : Room) (other : String)
    (hnew : name ∉ keys rooms) :
    getRoom (insertKey rooms name room) other =
      if name = other then some room else getRoom rooms other := by
  unfold insertKey
  split
  · exact getRoom_insertIndexed _ _ _ _ _ hnew
  · exact getRoom_append_singleton _ _ _ _ hnew

theorem roomTruthy_of_mem_keys {rooms : Rooms} {name : String} (h : name ∈ keys rooms) :
    roomTruthy rooms name = true := by
  simp [roomTruthy, getRoom_isSome.mpr h]

theorem roomTruthy_eq_false {rooms : Rooms} {name : String} (h : name ∉ keys rooms)
    (hp : name ∉ objectPrototypeKeys) : roomTruthy rooms name = false := by
  simp [roomTruthy, getRoom_eq_none.mpr h, hp]

theorem findRoomByCode_eq_none {rooms : Rooms} {roomCode : String}
    (h : ∀ e ∈ rooms, e.2.code ≠ roomCode) : findRoomByCode rooms roomCode = none := by
  unfold findRoomByCode
  rw [List.find?_eq_none]
  intro key _
  cases hg : getRoom rooms key with
  | none => simp
  | some r => simpa using h _ (getRoom_mem hg)

theorem keys_pushUser (rooms : Rooms) (room : String) (user : User) :
    keys (pushUser rooms room user) = keys rooms := by
  unfold keys pushUser
  rw [List.map_map]
  apply List.map_congr_left
  intro e _
  by_cases h : e.1 = room <;> simp [h]

theorem keys_removeUser (rooms : Rooms) (room : String) (id : String) :
    keys (removeUser rooms room id) = keys rooms := by
  unfold keys removeUser
  rw [List.map_map]
  apply List.map_congr_left
  intro e _
  by_cases h : e.1 = room <;> simp [h]

/-- A property of the start-up state that every request preserves holds in
every reachable state. -/
theorem run_induction (env : Env) (P : State → Prop) (h0 : P initialState)
    (hstep : ∀ st req, P st → P (step env st req)) (reqs : List Request) :
    P (run env reqs) := by
  have key : ∀ (l : List Request) (st : State), P st → P (l.foldl (step env) st) := by
    intro l
    induction l with
    | nil => intro st h; exact h
    | cons r rs ih => intro st h; exact ih _ (hstep st r h)
  exact key reqs initialState h0

theorem keys_step (env : Env) (st : State) (req : Request) (k : String)
    (h : k ∈ keys st.rooms) : k ∈ keys (step env st req).rooms := by
  cases req with
  | getRooms => exact h
  | postCreateRoom auth roomName saveOk =>
    simp only [step, postCreateRoom]
    cases auth with
    | none => exact h
    | some userId =>
      by_cases ht : roomTruthy st.rooms roomName = true
      · simpa [ht] using h
      · cases saveOk <;>
          simp [ht, (keys_insertKey_perm st.rooms roomName _).mem_iff, h]
  | createRoom room =>
    simp only [step, createRoom]
    by_cases ht : roomTruthy st.rooms room = true
    · simpa [ht] using h
    · simp [ht, (keys_insertKey_perm st.rooms room _).mem_iff, h]
  | joinRoom id username roomCode =>
    simp only [step, joinRoom]
    split
    · exact h
    · split
      · exact h
      · split
        · exact h
        · simpa [keys_pushUser] using h
  | chatMessage id msg saveOk =>
    simp only [step, chatMessage]
    split <;> exact h
  | disconnect id =>
    simp only [step, disconnect]
    split
    · exact h
    · split
      · simpa [keys_removeUser] using h
      · exact h

/-! ## Lemmas on members and codes -/

theorem not_mem_keys_of_not_truthy {rooms : Rooms} {name : String}
    (h : ¬ roomTruthy rooms name = true) : name ∉ keys rooms := by
  intro hk
  exact h (roomTruthy_of_mem_keys hk)

theorem memberIds_cons (x : String × Room) (xs : Rooms) :
    memberIds (x :: xs) = x.2.users.map User.id ++ memberIds xs := by
  simp [memberIds]

theorem mem_memberIds {rooms : Rooms} {id : String} :
    id ∈ memberIds rooms ↔ ∃ e ∈ rooms, ∃ u ∈ e.2.users, u.id = id := by
  simp [memberIds, List.mem_flatMap]

theorem pushUser_of_not_mem (rooms : Rooms) (room : String) (user : User)
    (h : room ∉ keys rooms) : pushUser rooms room user = rooms := by
  unfold pushUser
  conv_rhs => rw [← List.map_id rooms]
  apply List.map_congr_left
  intro e he
  have : ¬ e.1 = room := fun heq => h (heq ▸ List.mem_map_of_mem Prod.fst he)
  simp [this]

theorem memberIds_pushUser_perm (rooms : Rooms) (room : String) (user : User)
    (hnd : (keys rooms).Nodup) (hmem : room ∈ keys rooms) :
    (memberIds (pushUser rooms room user)).Perm (user.id :: memberIds rooms) := by
  induction rooms with
  | nil => simp [keys] at hmem
  | cons x xs ih =>
    have hx : x.1 ∉ keys xs := (List.nodup_cons.mp hnd).1
    have hxs : (keys xs).Nodup := (List.nodup_cons.mp hnd).2
    by_cases h : x.1 = room
    · have hnot : room ∉ keys xs := h ▸ hx
      have hcons : pushUser (x :: xs) room user =
          (x.1, { x.2 with users := x.2.users ++ [user] }) :: pushUser xs room user := by
        simp [pushUser, h]
      rw [hcons, pushUser_of_not_mem xs room user hnot, memberIds_cons, memberIds_cons]
      simp only [List.map_append, List.map_cons, List.map_nil, List.append_assoc,
        List.singleton_append]
      exact List.perm_middle
    · have hin : room ∈ keys xs := by
        simp only [keys, List.map_cons, List.mem_cons] at hmem
        rcases hmem with hmem | hmem
        · exact absurd hmem.symm h
        · exact hmem
      have hcons : pushUser (x :: xs) room user = x :: pushUser xs room user := by
        simp [pushUser, h]
      rw [hcons, memberIds_cons, memberIds_cons]
      exact (List.Perm.append_left _ (ih hxs hin)).trans List.perm_middle

theorem memberIds_removeUser_sublist (rooms : Rooms) (room id : String) :
    (memberIds (removeUser rooms room id)).Sublist (memberIds rooms) := by
  induction rooms with
  | nil => simp [removeUser, memberIds]
  | cons x xs ih =>
    by_cases h : x.1 = room
    · have hcons : removeUser (x :: xs) room id =
          (x.1, { x.2 with users := x.2.users.filter fun u => decide (u.id ≠ id) })
            :: removeUser xs room id := by
        simp [removeUser, h]
      rw [hcons, memberIds_cons, memberIds_cons]
      exact List.Sublist.append ((List.filter_sublist _).map _) ih
    · have hcons : removeUser (x :: xs) room id = x :: removeUser xs room id := by
        simp [removeUser, h]
      rw [hcons, memberIds_cons, memberIds_cons]
      exact List.Sublist.append (List.Sublist.refl _) ih

theorem memberIds_insertKey_perm (rooms : Rooms) (name : String) (room : Room) :
    (memberIds (insertKey rooms name room)).Perm
      (room.users.map User.id ++ memberIds rooms) := by
  have h := (insertKey_perm rooms name room).flatMap_right
    (fun e : String × Room => e.2.users.map User.id)
  simpa [memberIds] using h

theorem codes_insertKey_perm (rooms : Rooms) (name : String) (room : Room) :
    (codes (insertKey rooms name room)).Perm (room.code :: codes rooms) :=
  (insertKey_perm rooms name room).map fun e : String × Room => e.2.code

theorem codes_pushUser (rooms : Rooms) (room : String) (user : User) :
    codes (pushUser rooms room user) = codes rooms := by
  unfold codes pushUser
  rw [List.map_map]
  apply List.map_congr_left
  intro e _
  by_cases h : e.1 = room <;> simp [h]

theorem codes_removeUser (rooms : Rooms) (room : String) (id : String) :
    codes (removeUser rooms room id) = codes rooms := by
  unfold codes removeUser
  rw [List.map_map]
  apply List.map_congr_left
  intro e _
  by_cases h : e.1 = room <;> simp [h]

theorem getCurrentUser_some {users : List User} {id : String} {u : User}
    (h : getCurrentUser users id = some u) : u ∈ users ∧ u.id = id := by
  refine ⟨List.mem_of_find?_eq_some h, ?_⟩
  simpa using List.find?_some h

theorem getCurrentUser_none {users : List User} {id : String}
    (h : getCurrentUser users id = none) : ∀ v ∈ users, v.id ≠ id := by
  intro v hv
  have := List.find?_eq_none.mp h v hv
  simpa using this

theorem findRoomByCode_some {rooms : Rooms} {roomCode room : String}
    (h : findRoomByCode rooms roomCode = some room) :
    room ∈ keys rooms ∧ ∃ r, getRoom rooms room = some r ∧ r.code = roomCode := by
  unfold findRoomByCode at h
  refine ⟨List.mem_of_find?_eq_some h, ?_⟩
  have hp := List.find?_some h
  cases hg : getRoom rooms room with
  | none => simp [hg] at hp
  | some r => exact ⟨r, rfl, by simpa [hg] using hp⟩

/-! ## What each handler does to the state -/

theorem joinRoom_state_cases (env : Env) (st : State) (id username roomCode : String) :
    (joinRoom env st id username roomCode).state = st ∨
    ∃ room, findRoomByCode st.rooms roomCode = some room ∧ room ≠ "" ∧
      getCurrentUser st.users id = none ∧
      (joinRoom env st id username roomCode).state =
        { st with
          users := st.users ++ [{ id := id, username := username, room := room }],
          rooms := pushUser st.rooms room { id := id, username := username, room := room } } := by
  unfold joinRoom
  cases hf : findRoomByCode st.rooms roomCode with
  | none => exact Or.inl rfl
  | some room =>
    by_cases he : room = ""
    · left; simp [he]
    · cases hg : getCurrentUser st.users id with
      | some u => left; simp [he, userJoin, hg]
      | none => right; exact ⟨room, rfl, he, rfl, by simp [he, userJoin, hg]⟩

theorem disconnect_state_cases (env : Env) (st : State) (id : String) :
    (userLeave st.users id = none ∧ (disconnect env st id).state = st) ∨
    ∃ user, getCurrentUser st.users id = some user ∧
      (((disconnect env st id).state =
          { st with
            users := st.users.filter (fun v => decide (v.id ≠ id)),
            rooms := removeUser st.rooms user.room user.id }) ∨
       (getRoom st.rooms user.room = none ∧
        (disconnect env st id).state =
          { st with users := st.users.filter (fun v => decide (v.id ≠ id)) })) := by
  unfold disconnect
  cases hg : getCurrentUser st.users id with
  | none => left; simp [userLeave, hg]
  | some user =>
    right
    refine ⟨user, rfl, ?_⟩
    cases hr : getRoom st.rooms user.room with
    | none => right; simp [userLeave, hg, hr]
    | some r => left; simp [userLeave, hg, hr]

theorem step_create_cases (env : Env) (st : State) (req : Request) :
    ((step env st req).rooms = st.rooms ∧ (step env st req).generated = st.generated) ∨
    (∃ name creator, name ∉ keys st.rooms ∧
      step env st req =
        { st with
          rooms := insertKey st.rooms name
            { users := [], code := env.generateRoomCode st.generated, creator := creator },
          generated := st.generated + 1 }) ∨
    (∃ room user, (step env st req).rooms = pushUser st.rooms room user ∧
      (step env st req).generated = st.generated) ∨
    (∃ room id, (step env st req).rooms = removeUser st.rooms room id ∧
      (step env st req).generated = st.generated) := by
  cases req with
  | getRooms => exact Or.inl ⟨rfl, rfl⟩
  | postCreateRoom auth roomName saveOk =>
    cases auth with
    | none => exact Or.inl ⟨rfl, rfl⟩
    | some userId =>
      by_cases ht : roomTruthy st.rooms roomName = true
      · left; simp [step, postCreateRoom, ht]
      · right; left
        refine ⟨roomName, some userId, not_mem_keys_of_not_truthy ht, ?_⟩
        cases saveOk <;> simp [step, postCreateRoom, ht]
  | createRoom room =>
    by_cases ht : roomTruthy st.rooms room = true
    · left; simp [step, createRoom, ht]
    · right; left
      exact ⟨room, none, not_mem_keys_of_not_truthy ht, by simp [step, createRoom, ht]⟩
  | joinRoom id username roomCode =>
    rcases joinRoom_state_cases env st id username roomCode with h | ⟨room, _, _, _, h⟩
    · left; simp [step, h]
    · right; right; left
      exact ⟨room, { id := id, username := username, room := room },
        by simp [step, h], by simp [step, h]⟩
  | chatMessage id msg saveOk =>
    left
    simp only [step, chatMessage]
    split <;> exact ⟨rfl, rfl⟩
  | disconnect id =>
    rcases disconnect_state_cases env st id with ⟨_, h⟩ | ⟨user, _, h | ⟨_, h⟩⟩
    · left; simp [step, h]
    · right; right; right
      exact ⟨user.room, user.id, by simp [step, h], by simp [step, h]⟩
    · left; simp [step, h]

theorem consistent_initialState : Consistent initialState :=
  ⟨by decide, by decide, by decide, by decide⟩

theorem consistent_insertKey {st : State} (h : Consistent st) (name code : String)
    (creator : Option String) (n : Nat) (hnew : name ∉ keys st.rooms) :
    Consistent
      { st with
        rooms := insertKey st.rooms name { users := [], code := code, creator := creator },
        generated := n } := by
  refine ⟨?_, h.ids_nodup, ?_, ?_⟩
  · exact (keys_insertKey_perm st.rooms name _).nodup_iff.mpr
      (List.nodup_cons.mpr ⟨hnew, h.keys_nodup⟩)
  · intro e he u hu
    rcases mem_insertKey.mp he with rfl | he
    · simp at hu
    · exact h.members_registered e he u hu
  · exact (memberIds_insertKey_perm st.rooms name _).nodup_iff.mpr
      (by simpa using h.members_nodup)

theorem consistent_joinRoom (env : Env) {st : State} (h : Consistent st)
    (id username roomCode : String) :
    Consistent (joinRoom env st id username roomCode).state := by
  rcases joinRoom_state_cases env st id username roomCode with he | ⟨room, hf, _, hg, he⟩
  · rw [he]; exact h
  · rw [he]
    have hfresh := getCurrentUser_none hg
    have hroom := (findRoomByCode_some hf).1
    refine ⟨?_, ?_, ?_, ?_⟩
    · simpa [keys_pushUser] using h.keys_nodup
    · simp only [List.map_append, List.map_cons, List.map_nil]
      refine List.Nodup.append h.ids_nodup (List.nodup_singleton _) ?_
      intro x hx hx'
      simp only [List.mem_singleton] at hx'
      obtain ⟨v, hv, rfl⟩ := List.mem_map.mp hx
      exact hfresh v hv hx'
    · intro e he' u hu
      simp only [pushUser, List.mem_map] at he'
      obtain ⟨e0, he0, rfl⟩ := he'
      by_cases hk : e0.1 = room
      · simp only [hk, if_true, List.mem_append, List.mem_singleton] at hu ⊢
        rcases hu with hu | rfl
        · have := h.members_registered e0 he0 u hu
          exact ⟨Or.inl this.1, this.2.trans hk⟩
        · exact ⟨Or.inr rfl, rfl⟩
      · simp only [hk, if_false] at hu ⊢
        have := h.members_registered e0 he0 u hu
        exact ⟨List.mem_append_left _ this.1, this.2⟩
    · refine (memberIds_pushUser_perm st.rooms room _ h.keys_nodup hroom).nodup_iff.mpr ?_
      refine List.nodup_cons.mpr ⟨?_, h.members_nodup⟩
      intro hmem
      obtain ⟨e, he', u, hu, hid⟩ := mem_memberIds.mp hmem
      exact hfresh u (h.members_registered e he' u hu).1 hid

theorem consistent_disconnect (env : Env) {st : State} (h : Consistent st) (id : String) :
    Consistent (disconnect env st id).state := by
  have hfilter : ((st.users.filter (fun v => decide (v.id ≠ id))).map User.id).Nodup :=
    List.Nodup.sublist ((List.filter_sublist _).map _) h.ids_nodup
  rcases disconnect_state_cases env st id with ⟨_, he⟩ | ⟨user, hg, he | ⟨hr, he⟩⟩
  · rw [he]; exact h
  · rw [he]
    obtain ⟨huser, hid⟩ := getCurrentUser_some hg
    refine ⟨?_, hfilter, ?_, ?_⟩
    · simpa [keys_removeUser] using h.keys_nodup
    · intro e he' u hu
      simp only [removeUser, List.mem_map] at he'
      obtain ⟨e0, he0, rfl⟩ := he'
      by_cases hk : e0.1 = user.room
      · simp only [hk, if_true, List.mem_filter] at hu ⊢
        have := h.members_registered e0 he0 u hu.1
        have hne : u.id ≠ id := by simpa [hid] using hu.2
        exact ⟨⟨this.1, by simpa using hne⟩, this.2.trans hk⟩
      · simp only [hk, if_false] at hu ⊢
        have := h.members_registered e0 he0 u hu
        refine ⟨List.mem_filter.mpr ⟨this.1, ?_⟩, this.2⟩
        simp only [decide_eq_true_eq]
        intro hid'
        have heq : u = user :=
          List.inj_on_of_nodup_map h.ids_nodup this.1 huser (hid'.trans hid.symm)
        exact hk (this.2.symm.trans (by rw [heq]))
    · exact List.Nodup.sublist (memberIds_removeUser_sublist _ _ _) h.members_nodup
  · rw [he]
    obtain ⟨huser, hid⟩ := getCurrentUser_some hg
    refine ⟨h.keys_nodup, hfilter, ?_, h.members_nodup⟩
    intro e he' u hu
    have := h.members_registered e he' u hu
    refine ⟨List.mem_filter.mpr ⟨this.1, ?_⟩, this.2⟩
    simp only [decide_eq_true_eq]
    intro hid'
    have heq : u = user :=
      List.inj_on_of_nodup_map h.ids_nodup this.1 huser (hid'.trans hid.symm)
    have hkey : user.room ∈ keys st.rooms := by
      rw [← heq, this.2]
      exact List.mem_map_of_mem Prod.fst he'
    exact getRoom_eq_none.mp hr hkey

theorem consistent_step (env : Env) {st : State} (h : Consistent st) (req : Request) :
    Consistent (step env st req) := by
  cases req with
  | getRooms => exact h
  | postCreateRoom auth roomName saveOk =>
    cases auth with
    | none => exact h
    | some userId =>
      by_cases ht : roomTruthy st.rooms roomName = true
      · simpa [step, postCreateRoom, ht] using h
      · have := consistent_insertKey h roomName (env.generateRoomCode st.generated)
          (some userId) (st.generated + 1) (not_mem_keys_of_not_truthy ht)
        cases saveOk <;> simpa [step, postCreateRoom, ht] using this
  | createRoom room =>
    by_cases ht : roomTruthy st.rooms room = true
    · simpa [step, createRoom, ht] using h
    · have := consistent_insertKey h room (env.generateRoomCode st.generated)
        none (st.generated + 1) (not_mem_keys_of_not_truthy ht)
      simpa [step, createRoom, ht] using this
  | joinRoom id username roomCode => exact consistent_joinRoom env h id username roomCode
  | chatMessage id msg saveOk =>
    simp only [step, chatMessage]
    split <;> exact h
  | disconnect id => exact consistent_disconnect env h id

theorem consistent_run (env : Env) (reqs : List Request) : Consistent (run env reqs) :=
  run_induction env Consistent consistent_initialState
    (fun _ req h => consistent_step env h req) reqs

/-! ## Lookups after a push or a removal -/

theorem getRoom_of_mem {rooms : Rooms} (hnd : (keys rooms).Nodup) {e : String × Room}
    (he : e ∈ rooms) : getRoom rooms e.1 = some e.2 := by
  induction rooms with
  | nil => simp at he
  | cons x xs ih =>
    have hx : x.1 ∉ keys xs := (List.nodup_cons.mp hnd).1
    have hxs : (keys xs).Nodup := (List.nodup_cons.mp hnd).2
    rcases List.mem_cons.mp he with rfl | he'
    · simp [getRoom]
    · have hne : ¬ x.1 = e.1 := fun h => hx (h ▸ List.mem_map_of_mem Prod.fst he')
      simp only [getRoom, hne, if_false]
      exact ih hxs he'

theorem findRoomByCode_isSome {rooms : Rooms} (hnd : (keys rooms).Nodup) {roomCode : String}
    (h : ∃ e ∈ rooms, e.2.code = roomCode) : ∃ room, findRoomByCode rooms roomCode = some room := by
  obtain ⟨e, he, hc⟩ := h
  cases hf : findRoomByCode rooms roomCode with
  | some room => exact ⟨room, rfl⟩
  | none =>
    exfalso
    unfold findRoomByCode at hf
    have := List.find?_eq_none.mp hf e.1 (List.mem_map_of_mem Prod.fst he)
    simp [getRoom_of_mem hnd he, hc] at this

theorem getRoom_pushUser (rooms : Rooms) (room : String) (user : User) (other : String) :
    getRoom (pushUser rooms room user) other =
      (getRoom rooms other).map fun r =>
        if other = room then { r with users := r.users ++ [user] } else r := by
  induction rooms with
  | nil => simp [pushUser, getRoom]
  | cons x xs ih =>
    obtain ⟨k, v⟩ := x
    by_cases hk : k = room
    · have hcons : pushUser ((k, v) :: xs) room user =
          (k, { v with users := v.users ++ [user] }) :: pushUser xs room user := by
        simp [pushUser, hk]
      rw [hcons]
      by_cases ho : k = other
      · have : other = room := ho.symm.trans hk
        simp [getRoom, ho, this]
      · simp only [getRoom, ho, if_false]
        exact ih
    · have hcons : pushUser ((k, v) :: xs) room user = (k, v) :: pushUser xs room user := by
        simp [pushUser, hk]
      rw [hcons]
      by_cases ho : k = other
      · have : ¬ other = room := fun h => hk (ho.trans h)
        simp [getRoom, ho, this]
      · simp only [getRoom, ho, if_false]
        exact ih

theorem getRoom_removeUser (rooms : Rooms) (room id : String) (other : String) :
    getRoom (removeUser rooms room id) other =
      (getRoom rooms other).map fun r =>
        if other = room then
          { r with users := r.users.filter fun u => decide (u.id ≠ id) }
        else r := by
  induction rooms with
  | nil => simp [removeUser, getRoom]
  | cons x xs ih =>
    obtain ⟨k, v⟩ := x
    by_cases hk : k = room
    · have hcons : removeUser ((k, v) :: xs) room id =
          (k, { v with users := v.users.filter fun u => decide (u.id ≠ id) })
            :: removeUser xs room id := by
        simp [removeUser, hk]
      rw [hcons]
      by_cases ho : k = other
      · have : other = room := ho.symm.trans hk
        simp [getRoom, ho, this]
      · simp only [getRoom, ho, if_false]
        exact ih
    · have hcons : removeUser ((k, v) :: xs) room id = (k, v) :: removeUser xs room id := by
        simp [removeUser, hk]
      rw [hcons]
      by_cases ho : k = other
      · have : ¬ other = room := fun h => hk (ho.trans h)
        simp [getRoom, ho, this]
      · simp only [getRoom, ho, if_false]
        exact ih

theorem filter_ne_id_eq_self (users : List User) (id : String)
    (h : ∀ u ∈ users, u.id ≠ id) :
    users.filter (fun u => decide (u.id ≠ id)) = users := by
  rw [List.filter_eq_self]
  intro u hu
  simpa using h u hu

theorem removeUser_of_not_member (rooms : Rooms) (room id : String)
    (h : id ∉ memberIds rooms) : removeUser rooms room id = rooms := by
  unfold removeUser
  conv_rhs => rw [← List.map_id rooms]
  apply List.map_congr_left
  intro e he
  have hf := filter_ne_id_eq_self e.2.users id
    (fun u hu hid => h (mem_memberIds.mpr ⟨e, he, u, hu, hid⟩))
  by_cases hk : e.1 = room
  · rw [if_pos hk, hf]
    rfl
  · rw [if_neg hk]
    rfl

theorem removeUser_pushUser (rooms : Rooms) (room : String) (user : User)
    (h : user.id ∉ memberIds rooms) :
    removeUser (pushUser rooms room user) room user.id = rooms := by
  unfold removeUser pushUser
  rw [List.map_map]
  conv_rhs => rw [← List.map_id rooms]
  apply List.map_congr_left
  intro e he
  have hf := filter_ne_id_eq_self e.2.users user.id
    (fun u hu hid => h (mem_memberIds.mpr ⟨e, he, u, hu, hid⟩))
  have hlast : [user].filter (fun u => decide (u.id ≠ user.id)) = [] := by simp
  simp only [Function.comp_apply]
  by_cases hk : e.1 = room
  · rw [if_pos hk, if_pos hk]
    simp only [List.filter_append, hf, hlast, List.append_nil]
    rfl
  · rw [if_neg hk, if_neg hk]
    rfl

theorem disconnect_rooms (env : Env) (st : State) (id : String) :
    (disconnect env st id).state.rooms =
      match getCurrentUser st.users id with
      | none => st.rooms
      | some user =>
        match getRoom st.rooms user.room with
        | some _ => removeUser st.rooms user.room user.id
        | none => st.rooms := by
  unfold disconnect
  cases hg : getCurrentUser st.users id with
  | none => simp [userLeave, hg]
  | some user =>
    cases hr : getRoom st.rooms user.room with
    | none => simp [userLeave, hg, hr]
    | some r => simp [userLeave, hg, hr]

/-! ## Room creation -/

/-- C3, counterexample: on the start-up table `toString` is not a key, yet the
socket `createRoom` answers 'Room already exists' and creates nothing; and an
authorised `POST /createRoom` for the new name `Go` whose `save()` fails
answers 500 'Server error' and returns no code. -/
theorem createRoom_new_name_fails :
    "toString" ∉ keys initialState.rooms ∧
    createRoom (constEnv "ABC123") initialState "toString" =
      (initialState, { error := some "Room already exists", roomCode := none }) ∧
    "Go" ∉ keys initialState.rooms ∧
    (postCreateRoom (constEnv "ABC123") initialState (some "u1") "Go" false).2 =
      { status := 500, success := false, message := some "Server error", roomCode := none } := by
  decide

/-- C3, as amended: for a name that is a key of the table, the socket handler
and the authorised HTTP route both answer 'Room already exists' and leave the
whole state, the count of generated codes included, unchanged. For a name that
is neither a key nor a property name inherited from `Object.prototype`, the
socket handler returns the generated code and the table then holds that name
with no users and that code, every other name as before; the authorised HTTP
route stores the room likewise (with its creator) and answers 201 with the
code when `save()` resolves and 500 'Server error' when it rejects. -/
theorem createRoom_existing_or_fresh (env : Env) (st : State) (name : String) :
    (name ∈ keys st.rooms →
      createRoom env st name =
        (st, { error := some "Room already exists", roomCode := none }) ∧
      ∀ userId saveOk, postCreateRoom env st (some userId) name saveOk =
        (st, { status := 400, success := false, message := some "Room already exists",
               roomCode := none })) ∧
    (name ∉ keys st.rooms → name ∉ objectPrototypeKeys →
      (createRoom env st name).2 =
        { error := none, roomCode := some (env.generateRoomCode st.generated) } ∧
      getRoom (createRoom env st name).1.rooms name =
        some { users := [], code := env.generateRoomCode st.generated, creator := none } ∧
      (∀ other, other ≠ name →
        getRoom (createRoom env st name).1.rooms other = getRoom st.rooms other) ∧
      ∀ userId saveOk,
        getRoom (postCreateRoom env st (some userId) name saveOk).1.rooms name =
          some { users := [], code := env.generateRoomCode st.generated,
                 creator := some userId } ∧
        (∀ other, other ≠ name →
          getRoom (postCreateRoom env st (some userId) name saveOk).1.rooms other =
            getRoom st.rooms other) ∧
        (postCreateRoom env st (some userId) name saveOk).2 =
          if saveOk then
            { status := 201, success := true, message := none,
              roomCode := some (env.generateRoomCode st.generated) }
          else
            { status := 500, success := false, message := some "Server error",
              roomCode := none }) := by
  constructor
  · intro h
    have ht := roomTruthy_of_mem_keys h
    constructor
    · simp [createRoom, ht]
    · intro userId saveOk
      simp [postCreateRoom, ht]
  · intro h hp
    have ht := roomTruthy_eq_false h hp
    refine ⟨by simp [createRoom, ht], ?_, ?_, ?_⟩
    · simp [createRoom, ht, getRoom_insertKey _ _ _ _ h]
    · intro other ho
      have : ¬ name = other := fun e => ho e.symm
      simp [createRoom, ht, getRoom_insertKey _ _ _ _ h, this]
    · intro userId saveOk
      refine ⟨?_, ?_, ?_⟩
      · cases saveOk <;> simp [postCreateRoom, ht, getRoom_insertKey _ _ _ _ h]
      · intro other ho
        have : ¬ name = other := fun e => ho e.symm
        cases saveOk <;> simp [postCreateRoom, ht, getRoom_insertKey _ _ _ _ h, this]
      · cases saveOk <;> simp [postCreateRoom, ht]

/-- C3, witness: `Java` is a key of the start-up table and is refused; `Go` is
new and is created with the generated code. -/
theorem createRoom_existing_or_fresh_witness :
    "Java" ∈ keys initialState.rooms ∧
    createRoom (constEnv "ABC123") initialState "Java" =
      (initialState, { error := some "Room already exists", roomCode := none }) ∧
    "Go" ∉ keys initialState.rooms ∧ "Go" ∉ objectPrototypeKeys ∧
    getRoom (createRoom (constEnv "ABC123") initialState "Go").1.rooms "Go" =
      some { users := [], code := "ABC123", creator := none } :=
  ⟨by decide,
   ((createRoom_existing_or_fresh (constEnv "ABC123") initialState "Java").1 (by decide)).1,
   by decide, by decide,
   ((createRoom_existing_or_fresh (constEnv "ABC123") initialState "Go").2
      (by decide) (by decide)).2.1⟩

/-! ## Room listing -/

/-- C7, counterexample: after the socket `createRoom` for `Go`, the name is a key
of the table but `GET /rooms` does not list it. -/
theorem getRooms_omits_created_room :
    "Go" ∈ keys (run (constEnv "ABC123") [.createRoom "Go"]).rooms ∧
    "Go" ∉ getRooms (run (constEnv "ABC123") [.createRoom "Go"]) := by
  decide

/-- C7, as amended: in every reachable state `GET /rooms` returns exactly the
predefined room names, and each of them is a key of the table; at start-up they
are all the keys. -/
theorem getRooms_predefined (env : Env) (reqs : List Request) :
    getRooms (run env reqs) = predefinedRooms ∧
    (∀ name ∈ predefinedRooms, name ∈ keys (run env reqs).rooms) ∧
    keys (run env []).rooms = getRooms (run env []) := by
  refine ⟨rfl, ?_, ?_⟩
  swap
  · show keys initialState.rooms = predefinedRooms
    decide
  intro name hn
  refine run_induction env (fun st => name ∈ keys st.rooms) ?_ ?_ reqs
  · revert name; decide
  · intro st req h
    exact keys_step env st req name h

/-! ## Joining with an unknown code -/

/-- C4: when no room of the table has the given join code, `joinRoom` does one
thing only: it emits `error` with 'Room does not exist' on the requesting
socket. The registry is not called, the state (rooms and registry) is the
same, nothing is broadcast and nothing is thrown. -/
theorem joinRoom_unknown_code (env : Env) (st : State) (id username roomCode : String)
    (h : ∀ e ∈ st.rooms, e.2.code ≠ roomCode) :
    joinRoom env st id username roomCode =
      { state := st,
        trace := [.socketEmit id "error" (.reason "Room does not exist")],
        threw := false } := by
  simp [joinRoom, findRoomByCode_eq_none h]

/-- C4, witness: no start-up room has the code `NOPE`. -/
theorem joinRoom_unknown_code_witness :
    (∀ e ∈ initialState.rooms, e.2.code ≠ "NOPE") ∧
    joinRoom (constEnv "ABC123") initialState "s1" "Alice" "NOPE" =
      { state := initialState,
        trace := [.socketEmit "s1" "error" (.reason "Room does not exist")],
        threw := false } :=
  ⟨by decide, joinRoom_unknown_code (constEnv "ABC123") initialState "s1" "Alice" "NOPE"
    (by decide)⟩

/-! ## Chat messages -/

/-- C5: for a present sender, the events `chatMessage` sends to clients are the
same whether `save()` resolves or rejects, namely the one `message` broadcast
to the sender's room; in the trace of either run that broadcast stands before
the call of `save()`, with no `save()` ahead of it; and neither run throws or
changes the state. -/
theorem chatMessage_broadcast_independent_of_save (env : Env) (st : State)
    (id msg : String) (user : User) (h : getCurrentUser st.users id = some user) :
    emitted (chatMessage env st id msg false).trace =
      emitted (chatMessage env st id msg true).trace ∧
    emitted (chatMessage env st id msg true).trace =
      [.ioEmit user.room "message" (.message (env.formatMessage user.username msg))] ∧
    ∀ saveOk : Bool,
      (∃ pre post doc,
        (chatMessage env st id msg saveOk).trace =
          pre ++ Effect.ioEmit user.room "message"
            (.message (env.formatMessage user.username msg)) :: post ∧
        (∀ d, Effect.messageSave d ∉ pre) ∧ Effect.messageSave doc ∈ post ∧
        doc.text = msg ∧ doc.username = user.username ∧ doc.room = user.room) ∧
      (chatMessage env st id msg saveOk).threw = false ∧
      (chatMessage env st id msg saveOk).state = st := by
  refine ⟨?_, ?_, ?_⟩
  · simp [chatMessage, h, emitted, Effect.isEmit]
  · simp [chatMessage, h, emitted, Effect.isEmit]
  · intro saveOk
    refine ⟨⟨[.getCurrentUser id],
      [.messageSave { username := user.username, text := msg, room := user.room,
                      sentiment := (env.formatMessage user.username msg).sentiment,
                      emoji := (env.formatMessage user.username msg).emoji }]
        ++ (if saveOk then [] else [.consoleError]),
      { username := user.username, text := msg, room := user.room,
        sentiment := (env.formatMessage user.username msg).sentiment,
        emoji := (env.formatMessage user.username msg).emoji }, ?_, ?_, ?_, rfl, rfl, rfl⟩,
      ?_, ?_⟩
    · simp [chatMessage, h]
    · intro d hd
      simp at hd
    · simp
    · simp [chatMessage, h]
    · simp [chatMessage, h]

/-- C5, witness: Alice is present in `Java`; her message is broadcast there
whatever becomes of `save()`. -/
theorem chatMessage_broadcast_independent_of_save_witness :
    getCurrentUser [{ id := "s1", username := "Alice", room := "Java" }] "s1" =
      some { id := "s1", username := "Alice", room := "Java" } ∧
    emitted (chatMessage (constEnv "ABC123")
      { rooms := initialRooms, users := [{ id := "s1", username := "Alice", room := "Java" }],
        generated := 0 } "s1" "hi" false).trace =
    emitted (chatMessage (constEnv "ABC123")
      { rooms := initialRooms, users := [{ id := "s1", username := "Alice", room := "Java" }],
        generated := 0 } "s1" "hi" true).trace :=
  ⟨by decide,
   (chatMessage_broadcast_independent_of_save (constEnv "ABC123")
      { rooms := initialRooms, users := [{ id := "s1", username := "Alice", room := "Java" }],
        generated := 0 } "s1" "hi" { id := "s1", username := "Alice", room := "Java" }
      (by decide)).1⟩

/-- C6, at the failing input: a connection that never joined sends `hi`. The
handler calls `getCurrentUser`, gets no user and throws on `user.username`:
it emits nothing, no `error` event either, and the exception leaves the
handler. -/
theorem chatMessage_absent_sender_throws :
    getCurrentUser initialState.users "s1" = none ∧
    chatMessage (constEnv "ABC123") initialState "s1" "hi" true =
      { state := initialState, trace := [.getCurrentUser "s1"], threw := true } ∧
    emitted (chatMessage (constEnv "ABC123") initialState "s1" "hi" true).trace = [] := by
  decide

/-! ## Disconnecting -/

/-- C10: when `userLeave` returns no user, `disconnect` stops after that call:
the state is the same, nothing is emitted and nothing is thrown. -/
theorem disconnect_unregistered_noop (env : Env) (st : State) (id : String)
    (h : userLeave st.users id = none) :
    disconnect env st id = { state := st, trace := [.userLeave id], threw := false } := by
  simp [disconnect, h]

/-- C10, witness: at start-up nobody is registered. -/
theorem disconnect_unregistered_noop_witness :
    userLeave initialState.users "s1" = none ∧
    disconnect (constEnv "ABC123") initialState "s1" =
      { state := initialState, trace := [.userLeave "s1"], threw := false } :=
  ⟨by decide, disconnect_unregistered_noop (constEnv "ABC123") initialState "s1" (by decide)⟩

/-! ## Membership across rooms -/

/-- C1: in every state reachable from start-up by requests of any kind (joins
and disconnects among them, on any connections), the connection ids stored in
the users lists of all rooms, taken together, have no repetition: an id occurs
at most once over all rooms, so in at most one room and at most once there. -/
theorem member_of_at_most_one_room (env : Env) (reqs : List Request) :
    (memberIds (run env reqs).rooms).Nodup ∧
    (keys (run env reqs).rooms).Nodup ∧
    ∀ id, (memberIds (run env reqs).rooms).count id ≤ 1 := by
  have h := consistent_run env reqs
  exact ⟨h.members_nodup, h.keys_nodup, fun id => List.nodup_iff_count_le_one.mp h.members_nodup id⟩

/-! ## Uniqueness of join codes -/

theorem codes_run_perm (env : Env) (reqs : List Request) :
    (codes (run env reqs).rooms).Perm
      (predefinedRooms ++ (List.range (run env reqs).generated).map env.generateRoomCode) := by
  refine run_induction env
    (fun st => (codes st.rooms).Perm
      (predefinedRooms ++ (List.range st.generated).map env.generateRoomCode)) ?_ ?_ reqs
  · show (codes initialRooms).Perm (predefinedRooms ++ [])
    rw [List.append_nil]
    have : codes initialRooms = predefinedRooms := by decide
    rw [this]
  · intro st req h
    rcases step_create_cases env st req with ⟨hr, hg⟩ | ⟨name, creator, _, he⟩ |
      ⟨room, user, hr, hg⟩ | ⟨room, id, hr, hg⟩
    · rw [hr, hg]; exact h
    · rw [he]
      simp only [List.range_succ, List.map_append, List.map_cons, List.map_nil]
      refine (codes_insertKey_perm st.rooms name _).trans ?_
      rw [← List.append_assoc]
      exact ((List.Perm.cons _ h).trans (List.perm_append_singleton _ _).symm)
    · rw [hr, hg, codes_pushUser]; exact h
    · rw [hr, hg, codes_removeUser]; exact h

/-- C2, counterexample: the generator returns `ABC123` twice; after an HTTP
creation of `Alpha` and a socket creation of `Beta` the two rooms carry the
same code. -/
theorem createRoom_duplicate_code :
    (getRoom (run (constEnv "ABC123")
      [.postCreateRoom (some "u1") "Alpha" true, .createRoom "Beta"]).rooms "Alpha").map
        Room.code = some "ABC123" ∧
    (getRoom (run (constEnv "ABC123")
      [.postCreateRoom (some "u1") "Alpha" true, .createRoom "Beta"]).rooms "Beta").map
        Room.code = some "ABC123" ∧
    ¬ (codes (run (constEnv "ABC123")
      [.postCreateRoom (some "u1") "Alpha" true, .createRoom "Beta"]).rooms).Nodup := by
  decide

/-- C2, as amended: in every reachable state, for every generator, the room
names are pairwise distinct and the codes of the table are, up to order, the
predefined names followed by the values the generator has returned so far,
each stored as it came, without a check against existing codes and without a
retry. So no two distinct rooms have the same code exactly when the values
returned so far are pairwise distinct and differ from every predefined name. -/
theorem codes_unique_iff_generated_distinct (env : Env) (reqs : List Request) :
    (keys (run env reqs).rooms).Nodup ∧
    (codes (run env reqs).rooms).Perm
      (predefinedRooms ++ (List.range (run env reqs).generated).map env.generateRoomCode) ∧
    ((codes (run env reqs).rooms).Nodup ↔
      (predefinedRooms ++
        (List.range (run env reqs).generated).map env.generateRoomCode).Nodup) :=
  ⟨(consistent_run env reqs).keys_nodup, codes_run_perm env reqs,
   (codes_run_perm env reqs).nodup_iff⟩

/-! ## Joining with a known code -/

/-- C8, counterexample: (1) a room created under the empty name has the code
`ABC123`, yet `joinRoom` with that code answers 'Room does not exist' and
registers nobody; (2) a connection already present in `Java` joins with the
code of `PHP`: `userJoin` returns no user, the handler throws and the users
list of `PHP` stays empty. -/
theorem joinRoom_known_code_fails :
    ((getRoom (run (constEnv "ABC123") [.createRoom ""]).rooms "").map Room.code
        = some "ABC123" ∧
      joinRoom (constEnv "ABC123") (run (constEnv "ABC123") [.createRoom ""])
          "s1" "Alice" "ABC123" =
        { state := run (constEnv "ABC123") [.createRoom ""],
          trace := [.socketEmit "s1" "error" (.reason "Room does not exist")],
          threw := false }) ∧
    ((getRoom (run (constEnv "ABC123") [.joinRoom "s1" "Alice" "Java"]).rooms "PHP").map
        Room.code = some "PHP" ∧
      joinRoom (constEnv "ABC123") (run (constEnv "ABC123") [.joinRoom "s1" "Alice" "Java"])
          "s1" "Alice" "PHP" =
        { state := run (constEnv "ABC123") [.joinRoom "s1" "Alice" "Java"],
          trace := [.userJoin "s1" "Alice" "PHP"],
          threw := true }) := by
  decide

/-- C8, as amended: let the table have pairwise distinct names, let `roomCode`
be the code of some room, let the first room with that code in key order not
be the one with the empty name, and let the connection not be registered.
Then `joinRoom` does not throw, and there is a room `room` with code
`roomCode` such that the user `{id, username, room}` is registered, is appended
as the last element of that room's users list with the earlier members kept in
order, and the record under every other name, like the list of names, is
unchanged. -/
theorem joinRoom_known_code (env : Env) (st : State) (id username roomCode : String)
    (hnd : (keys st.rooms).Nodup)
    (hcode : ∃ e ∈ st.rooms, e.2.code = roomCode)
    (hname : findRoomByCode st.rooms roomCode ≠ some "")
    (hfresh : getCurrentUser st.users id = none) :
    ∃ room r,
      getRoom st.rooms room = some r ∧ r.code = roomCode ∧
      (joinRoom env st id username roomCode).threw = false ∧
      getCurrentUser (joinRoom env st id username roomCode).state.users id =
        some { id := id, username := username, room := room } ∧
      getRoom (joinRoom env st id username roomCode).state.rooms room =
        some { r with users := r.users ++ [{ id := id, username := username, room := room }] } ∧
      (∀ other, other ≠ room →
        getRoom (joinRoom env st id username roomCode).state.rooms other
          = getRoom st.rooms other) ∧
      keys (joinRoom env st id username roomCode).state.rooms = keys st.rooms := by
  obtain ⟨room, hf⟩ := findRoomByCode_isSome hnd hcode
  obtain ⟨_, r, hr, hc⟩ := findRoomByCode_some hf
  have hne : room ≠ "" := fun h => hname (by rw [hf, h])
  have hstate : (joinRoom env st id username roomCode).state =
      { st with
        users := st.users ++ [{ id := id, username := username, room := room }],
        rooms := pushUser st.rooms room { id := id, username := username, room := room } } := by
    simp [joinRoom, hf, hne, userJoin, hfresh]
  refine ⟨room, r, hr, hc, ?_, ?_, ?_, ?_, ?_⟩
  · simp [joinRoom, hf, hne, userJoin, hfresh]
  · rw [hstate]
    show getCurrentUser (st.users ++ [_]) id = _
    unfold getCurrentUser at hfresh ⊢
    rw [List.find?_append, hfresh]
    simp
  · rw [hstate]
    show getRoom (pushUser st.rooms room _) room = _
    rw [getRoom_pushUser, hr]
    simp
  · intro other ho
    rw [hstate]
    show getRoom (pushUser st.rooms room _) other = _
    rw [getRoom_pushUser]
    cases getRoom st.rooms other <;> simp [ho]
  · rw [hstate]
    exact keys_pushUser _ _ _

/-- C8, witness: at start-up connection `s1` joins with the code `Java`. -/
theorem joinRoom_known_code_witness :
    (keys initialState.rooms).Nodup ∧
    (∃ e ∈ initialState.rooms, e.2.code = "Java") ∧
    findRoomByCode initialState.rooms "Java" ≠ some "" ∧
    getCurrentUser initialState.users "s1" = none ∧
    ∃ room r,
      getRoom initialState.rooms room = some r ∧ r.code = "Java" ∧
      (joinRoom (constEnv "ABC123") initialState "s1" "Alice" "Java").threw = false ∧
      getCurrentUser (joinRoom (constEnv "ABC123") initialState "s1" "Alice" "Java").state.users
        "s1" = some { id := "s1", username := "Alice", room := room } ∧
      getRoom (joinRoom (constEnv "ABC123") initialState "s1" "Alice" "Java").state.rooms room =
        some { r with users := r.users ++ [{ id := "s1", username := "Alice", room := room }] } ∧
      (∀ other, other ≠ room →
        getRoom (joinRoom (constEnv "ABC123") initialState "s1" "Alice" "Java").state.rooms other
          = getRoom initialState.rooms other) ∧
      keys (joinRoom (constEnv "ABC123") initialState "s1" "Alice" "Java").state.rooms =
        keys initialState.rooms :=
  ⟨by decide, by decide, by decide, by decide,
   joinRoom_known_code (constEnv "ABC123") initialState "s1" "Alice" "Java"
     (by decide) (by decide) (by decide) (by decide)⟩

/-! ## Leaving a room -/

/-- C9: when the registry holds `user` for the connection and `user.room` is a
name of the table, `disconnect` does not throw; afterwards that room's users
list is the old one without the entries bearing the connection id, the others
in their old order, and no entry of it bears that id; the room's code and
creator, the list of names and the record under every other name are
unchanged. And for a connection whose id is in no users list, `joinRoom`
followed by `disconnect` leaves the rooms table as it was before the join. -/
theorem disconnect_removes_member (env : Env) (st : State) (id : String) :
    (∀ user, getCurrentUser st.users id = some user → user.room ∈ keys st.rooms →
      (disconnect env st id).threw = false ∧
      (∃ r, getRoom st.rooms user.room = some r ∧
        getRoom (disconnect env st id).state.rooms user.room =
          some { r with users := r.users.filter fun u => decide (u.id ≠ id) }) ∧
      (∀ r, getRoom (disconnect env st id).state.rooms user.room = some r →
        ∀ u ∈ r.users, u.id ≠ id) ∧
      (∀ other, other ≠ user.room →
        getRoom (disconnect env st id).state.rooms other = getRoom st.rooms other) ∧
      keys (disconnect env st id).state.rooms = keys st.rooms) ∧
    (∀ username roomCode, id ∉ memberIds st.rooms →
      (disconnect env (joinRoom env st id username roomCode).state id).state.rooms
        = st.rooms) := by
  constructor
  · intro user hg hkey
    obtain ⟨_, hid⟩ := getCurrentUser_some hg
    obtain ⟨r, hr⟩ := Option.isSome_iff_exists.mp (getRoom_isSome.mpr hkey)
    have hrooms : (disconnect env st id).state.rooms = removeUser st.rooms user.room id := by
      rw [disconnect_rooms, hg]
      simp [hr, hid]
    have hlook : getRoom (disconnect env st id).state.rooms user.room =
        some { r with users := r.users.filter fun u => decide (u.id ≠ id) } := by
      rw [hrooms, getRoom_removeUser, hr]
      simp
    refine ⟨?_, ⟨r, hr, hlook⟩, ?_, ?_, ?_⟩
    · simp [disconnect, userLeave, hg, hr]
    · intro r' hr' u hu
      rw [hlook] at hr'
      cases hr'
      simpa using (List.mem_filter.mp hu).2
    · intro other ho
      rw [hrooms, getRoom_removeUser]
      cases getRoom st.rooms other <;> simp [ho]
    · rw [hrooms]
      exact keys_removeUser _ _ _
  · intro username roomCode hmem
    rcases joinRoom_state_cases env st id username roomCode with he | ⟨room, _, _, hg, he⟩
    · rw [he, disconnect_rooms]
      cases hg : getCurrentUser st.users id with
      | none => rfl
      | some user =>
        obtain ⟨_, hid⟩ := getCurrentUser_some hg
        cases hr : getRoom st.rooms user.room with
        | none => simp only [hr]
        | some r =>
          simp only [hr]
          rw [hid]
          exact removeUser_of_not_member _ _ _ hmem
    · rw [he, disconnect_rooms]
      have hfound : getCurrentUser
          (st.users ++ [({ id := id, username := username, room := room } : User)]) id =
          some { id := id, username := username, room := room } := by
        unfold getCurrentUser at hg ⊢
        rw [List.find?_append, hg]
        simp
      simp only [hfound]
      cases hr : getRoom (pushUser st.rooms room
          { id := id, username := username, room := room }) room with
      | none =>
        simp only [hr]
        have hk : room ∉ keys st.rooms := by
          have := getRoom_eq_none.mp hr
          rwa [keys_pushUser] at this
        exact pushUser_of_not_mem _ _ _ hk
      | some r =>
        simp only [hr]
        exact removeUser_pushUser st.rooms room
          { id := id, username := username, room := room } hmem

/-- C9, witness: Alice (`s1`) and Bob (`s2`) are in `Java`; `s1` disconnects
and `Java` keeps Bob only. And from start-up, `s1` joining `Java` puts Alice
in its list and the disconnect brings the table back. -/
theorem disconnect_removes_member_witness :
    (getRoom (disconnect (constEnv "ABC123")
        (run (constEnv "ABC123") [.joinRoom "s1" "Alice" "Java", .joinRoom "s2" "Bob" "Java"])
        "s1").state.rooms "Java").map Room.users =
      some [{ id := "s2", username := "Bob", room := "Java" }] ∧
    "s1" ∉ memberIds initialState.rooms ∧
    (joinRoom (constEnv "ABC123") initialState "s1" "Alice" "Java").state.rooms
      ≠ initialState.rooms ∧
    (disconnect (constEnv "ABC123")
      (joinRoom (constEnv "ABC123") initialState "s1" "Alice" "Java").state "s1").state.rooms
      = initialState.rooms := by
  refine ⟨?_, by decide, by decide, ?_⟩
  · obtain ⟨r, hr, hlook⟩ := ((disconnect_removes_member (constEnv "ABC123")
      (run (constEnv "ABC123") [.joinRoom "s1" "Alice" "Java", .joinRoom "s2" "Bob" "Java"])
      "s1").1 { id := "s1", username := "Alice", room := "Java" } (by decide) (by decide)).2.1
    rw [hlook]
    have hr' : some r = getRoom (run (constEnv "ABC123")
        [.joinRoom "s1" "Alice" "Java", .joinRoom "s2" "Bob" "Java"]).rooms "Java" := hr.symm
    have hval : getRoom (run (constEnv "ABC123")
        [.joinRoom "s1" "Alice" "Java", .joinRoom "s2" "Bob" "Java"]).rooms "Java" =
        some { users := [{ id := "s1", username := "Alice", room := "Java" },
                         { id := "s2", username := "Bob", room := "Java" }],
               code := "Java", creator := none } := by decide
    rw [hval] at hr'
    cases hr'
    decide
  · exact (disconnect_removes_member (constEnv "ABC123") initialState "s1").2
      "Alice" "Java" (by decide)

end LetsTalk
